import Mathlib

/-!
Verification of the Lawvisory trading-strategy core, a shallow embedding of
`strategies/base_strategy.py` (class `LawvisoryBaseStrategy`) together with the
profile presets and the `ConservativeStrategy` subclass.

Modelling conventions:
* prices, quantities and indicator values are rationals (`ℚ`); pandas `NaN`
  outcomes are modelled as `Option.none` at the point where the source tests
  for them (`math.isnan`, incomplete rolling windows);
* calendar dates are integers (`ℤ`, days);
* tickers are abstracted to naturals; Python dictionaries keyed by ticker are
  association lists (`List (Symbol × _)`) or total functions where the source
  reads with a default;
* the host runtime accessors (`get_last_price`, `_realized_vol`, `_atr` as
  seen from `_rebalance`) are packaged into an `Env` of deterministic
  per-symbol lookups, matching the per-day cache behaviour of the source;
* `submit_order(create_order(sym, qty, side))` is a value of type `Order`.
-/

namespace Lawvisory

/-- Ticker symbols, abstracted to naturals. -/
abbrev Symbol := ℕ

/-- `Profile` dataclass of `base_strategy.py` (frozen parameter bundle). -/
structure Profile where
  max_positions : ℕ
  rebalance_every_days : ℕ
  risk_per_entry_cap : ℚ
  total_risk_budget : ℚ
  target_exposure_bull : ℚ
  target_exposure_bear : ℚ
  min_price : ℚ
  vol_penalty : ℚ
  max_sector_positions : ℕ
  atr_period : ℕ
  atr_mult_trail : ℚ
  max_drawdown : ℚ
  cooldown_days : ℕ
deriving DecidableEq

/-- The "balanced" preset of the `PROFILES` table. -/
def balancedProfile : Profile :=
  { max_positions := 10
    rebalance_every_days := 14
    risk_per_entry_cap := 1/100
    total_risk_budget := 7/100
    target_exposure_bull := 98/100
    target_exposure_bear := 20/100
    min_price := 5
    vol_penalty := 25/100
    max_sector_positions := 3
    atr_period := 14
    atr_mult_trail := 27/10
    max_drawdown := 20/100
    cooldown_days := 10 }

/-- The "max_return" preset of the `PROFILES` table. -/
def maxReturnProfile : Profile :=
  { max_positions := 7
    rebalance_every_days := 10
    risk_per_entry_cap := 1/100
    total_risk_budget := 10/100
    target_exposure_bull := 99/100
    target_exposure_bear := 30/100
    min_price := 5
    vol_penalty := 15/100
    max_sector_positions := 2
    atr_period := 14
    atr_mult_trail := 3
    max_drawdown := 20/100
    cooldown_days := 7 }

/-- `PROFILES: dict[str, Profile]` — the preset table, as an association list. -/
def PROFILES : List (String × Profile) :=
  [("balanced", balancedProfile), ("max_return", maxReturnProfile)]

/-- ASCII lowering of a string, modelling Python `str.lower()` on the ASCII
profile-name strings used by the repository (structural, kernel-reducible
version of `String.toLower`). -/
def pyLower (s : String) : String := String.mk (s.data.map Char.toLower)

/-- Strip leading and trailing whitespace, modelling Python `str.strip()`. -/
def pyStrip (s : String) : String :=
  String.mk (((s.data.dropWhile Char.isWhitespace).reverse.dropWhile
      Char.isWhitespace).reverse)

/-- `str(risk_profile_name or "balanced").lower().strip()` from
`LawvisoryBaseStrategy.initialize` (an empty string is falsy in Python). -/
def profileName (riskProfileName : String) : String :=
  pyStrip (pyLower (if riskProfileName = "" then "balanced" else riskProfileName))

/-- `PROFILES.get(name, PROFILES["balanced"])` from
`LawvisoryBaseStrategy.initialize`: the preset looked up by the normalized
name, falling back to the balanced preset. -/
def getProfile (riskProfileName : String) : Profile :=
  (PROFILES.lookup (profileName riskProfileName)).getD balancedProfile

/-- The profile name that `ConservativeStrategy` (in
`strategies/conservative.py`) passes to `initialize`. -/
def conservativeProfileName : String := "conservative"

/-- One daily bar.  Only the columns the strategy core reads (`high`, `low`,
`close` and the index date) are retained; the date is a day number. -/
structure Bar where
  date : ℤ
  high : ℚ
  low : ℚ
  close : ℚ
deriving DecidableEq

/-- Class constant `NO_LOOKAHEAD` of `LawvisoryBaseStrategy`. -/
def NO_LOOKAHEAD : Bool := true

/-- The no-lookahead trimming step of `_get_daily_df`: after the fetched frame
is cleaned, `if NO_LOOKAHEAD and isinstance(df.index, DatetimeIndex) and
len(df) >= 3: if df.index[-1].date() >= today: df = df.iloc[:-1]`.  Our bars
always carry dates, so the `isinstance` test is true. -/
def trimNoLookahead (noLookahead : Bool) (today : ℤ) (df : List Bar) : List Bar :=
  if noLookahead ∧ 3 ≤ df.length then
    match df.getLast? with
    | some b => if today ≤ b.date then df.dropLast else df
    | none => df
  else df

/-- The momentum helper `mom(lb)` defined inside `_rank_candidates`:
`if len(close) <= lb: return None; past = float(close.iloc[-lb]);
if past <= 0: return None; return (last_close / past) - 1.0`.
`close.iloc[-lb]` is the element at position `len - lb` for `lb > 0` and the
first element for `lb = 0` (Python `-0 == 0`); `last_close` is the final
element of the series. -/
def mom (close : List ℚ) (lb : ℕ) : Option ℚ :=
  if close.length ≤ lb then none
  else
    match close.get? (if lb = 0 then 0 else close.length - lb) with
    | none => none
    | some past =>
        if past ≤ 0 then none
        else some ((close.getLast?.getD 0) / past - 1)

/-- The lookback length `_atr` requests from `_get_daily_df`:
`max(self.profile.atr_period + 10, 80)`. -/
def atrFetchLength (period : ℕ) : ℕ := max (period + 10) 80

/-- Tail of the true-range series: each bar after the first contributes
`max(|high - low|, |high - prev_close|, |low - prev_close|)`. -/
def trAux (prev : Bar) : List Bar → List ℚ
  | [] => []
  | b :: rest =>
      max |b.high - b.low| (max |b.high - prev.close| |b.low - prev.close|) ::
        trAux b rest

/-- The true-range series of `_atr`.  For the first bar `prev_close` is `NaN`
and the pandas row-wise `max` (skipna) degrades to `|high - low|`. -/
def trueRanges : List Bar → List ℚ
  | [] => []
  | b :: rest => |b.high - b.low| :: trAux b rest

/-- `tr.rolling(period).mean().iloc[-1]`: the mean of the last `period`
values, `none` when the final rolling window is incomplete (pandas `NaN`,
caught by the `math.isnan` test in `_atr`). -/
def rollingMeanLast (period : ℕ) (xs : List ℚ) : Option ℚ :=
  if xs.length < period ∨ period = 0 then none
  else some ((xs.drop (xs.length - period)).sum / period)

/-- `_atr` evaluated on an already-fetched bar series: rolling mean of true
range over `atr_period` bars at the most recent bar, `none` when the result is
`NaN` (incomplete window) or `<= 0`.  (On an empty frame the Python raises
from `iloc[-1]`; theorems about this function therefore assume a nonempty
series.) -/
def atr (period : ℕ) (bars : List Bar) : Option ℚ :=
  match rollingMeanLast period (trueRanges bars) with
  | none => none
  | some a => if a ≤ 0 then none else some a

/-- Order side. -/
inductive Side where
  | buy
  | sell
deriving DecidableEq

/-- One `create_order(symbol, quantity, side)` instruction. -/
structure Order where
  symbol : Symbol
  quantity : ℚ
  side : Side
deriving DecidableEq

/-- Class constant `MIN_ORDER_DOLLARS`. -/
def MIN_ORDER_DOLLARS : ℚ := 150

/-- `1e-9`, the floor used by `_apply_drawdown_breaker` and
`_risk_on_fraction` to avoid division blow-ups. -/
def EPS : ℚ := 1/1000000000

/-- Class constant `BREADTH_LOW`. -/
def BREADTH_LOW : ℚ := 35/100

/-- Class constant `BREADTH_HIGH`. -/
def BREADTH_HIGH : ℚ := 65/100

/-- `_risk_on_fraction`: base exposure from the SPY trend
(`bull if spy_bull is True else bear if spy_bull is False else 1.0`), then on
rebalance days with breadth available, a clamped linear dial
`(b - BREADTH_LOW) / max(1e-9, BREADTH_HIGH - BREADTH_LOW)` blending bear
into bull exposure, the blend clamped to `[0, 1]`. -/
def riskOnFraction (prof : Profile) (spyTrendBull : Option Bool)
    (shouldRebalanceToday : Bool) (breadth : Option ℚ) : ℚ :=
  let bear := prof.target_exposure_bear
  let bull := prof.target_exposure_bull
  let base :=
    match spyTrendBull with
    | some true => bull
    | some false => bear
    | none => 1
  if ¬ shouldRebalanceToday then base
  else
    match breadth with
    | none => base
    | some b =>
        let dial := (b - BREADTH_LOW) / max EPS (BREADTH_HIGH - BREADTH_LOW)
        let dial2 := max 0 (min 1 dial)
        max 0 (min 1 (bear + dial2 * (bull - bear)))

/-- Sector of a symbol: `self._sector_by_symbol.get(sym, "UNKNOWN")`.  The
missing-key default is modelled by `none`, so all unmapped symbols share one
sector, exactly as all of them share `"UNKNOWN"` in the source. -/
abbrev Sector := Option ℕ

/-- Lookup into the `_sector_by_symbol` map. -/
def secOf (sectorBySymbol : List (Symbol × ℕ)) (sym : Symbol) : Sector :=
  sectorBySymbol.lookup sym

/-- First pass of `_select_with_sector_caps`: walk the ranked list, skip a
symbol whose sector count has reached the cap, otherwise accept it and bump
the count, stopping as soon as `max_positions` are accepted.
`sectorCount` is the running `sector_count` dict (total, default 0);
`selected` is the accumulator. -/
def capPassAux (maxPos cap : ℕ) (secOfFn : Symbol → Sector) :
    List Symbol → (Sector → ℕ) → List Symbol → List Symbol
  | [], _, selected => selected
  | sym :: rest, sectorCount, selected =>
      if cap ≤ sectorCount (secOfFn sym) then
        capPassAux maxPos cap secOfFn rest sectorCount selected
      else if maxPos ≤ (selected ++ [sym]).length then selected ++ [sym]
      else
        capPassAux maxPos cap secOfFn rest
          (fun t => if t = secOfFn sym then sectorCount t + 1 else sectorCount t)
          (selected ++ [sym])

/-- Fallback pass of `_select_with_sector_caps`: walk the ranked list again
ignoring sector caps, appending symbols not yet selected until
`max_positions` are held. -/
def fillPassAux (maxPos : ℕ) : List Symbol → List Symbol → List Symbol
  | [], selected => selected
  | sym :: rest, selected =>
      if sym ∈ selected then fillPassAux maxPos rest selected
      else if maxPos ≤ (selected ++ [sym]).length then selected ++ [sym]
      else fillPassAux maxPos rest (selected ++ [sym])

/-- `_select_with_sector_caps(ranked)`: plain top-N when no sector data is
present; otherwise the sector-capped pass followed, if it accepted fewer than
`max_positions`, by the sector-unaware fallback pass. -/
def selectWithSectorCaps (prof : Profile) (sectorBySymbol : List (Symbol × ℕ))
    (ranked : List Symbol) : List Symbol :=
  let maxPos := prof.max_positions
  let cap := prof.max_sector_positions
  if ranked = [] then []
  else if sectorBySymbol = [] then ranked.take maxPos
  else
    let selected := capPassAux maxPos cap (secOf sectorBySymbol) ranked (fun _ => 0) []
    if selected.length < maxPos then fillPassAux maxPos ranked selected
    else selected

/-- The `_highest_close` dict, as an association list. -/
abbrev HighMap := List (Symbol × ℚ)

/-- `self._highest_close.get(sym)` -/
def hcGet (m : HighMap) (s : Symbol) : Option ℚ := m.lookup s

/-- `self._highest_close.pop(sym, None)` (the resulting map). -/
def hcErase (m : HighMap) (s : Symbol) : HighMap :=
  m.filter (fun p => p.1 != s)

/-- `self._highest_close[sym] = v` (dict update-or-insert). -/
def hcSet (m : HighMap) (s : Symbol) (v : ℚ) : HighMap :=
  if m.any (fun p => p.1 == s) then
    m.map (fun p => if p.1 == s then (p.1, v) else p)
  else m ++ [(s, v)]

/-- One position iteration of `_apply_trailing_stops`, for a single symbol:
given the position quantity, the last price, the symbol's ATR and its current
tracked high, returns the new tracked-high entry (`none` = popped/absent) and
the emitted sell quantity (`none` = no order).  Mirrors: skip on `qty <= 0` or
missing/nonpositive price; raise the tracked high to the price; skip on
missing ATR; sell `abs(qty)` and pop the high when
`px <= prev_high - atr_mult_trail * atr`. -/
def trailingStep (atrMultTrail qty : ℚ) (px0 a0 high0 : Option ℚ) :
    Option ℚ × Option ℚ :=
  if qty ≤ 0 then (high0, none)
  else
    match px0 with
    | none => (high0, none)
    | some px =>
        if px ≤ 0 then (high0, none)
        else
          let ph0 := high0.getD px
          let ph := if ph0 < px then px else ph0
          match a0 with
          | none => (some ph, none)
          | some a =>
              let stop := ph - atrMultTrail * a
              if px ≤ stop then (none, some |qty|) else (some ph, none)

/-- The breaker-related engine state: `_equity_peak`, `_cooldown_until` and
`_highest_close`. -/
structure BreakerState where
  equityPeak : Option ℚ
  cooldownUntil : Option ℤ
  highestClose : HighMap
deriving DecidableEq

/-- The liquidation loop of `_apply_drawdown_breaker`: one order per open
position with nonzero quantity (`sell` for longs, `buy` for shorts). -/
def exitAll (positions : List (Symbol × ℚ)) : List Order :=
  positions.filterMap (fun p =>
    if p.2 = 0 then none
    else some ⟨p.1, |p.2|, if 0 < p.2 then Side.sell else Side.buy⟩)

/-- `_apply_drawdown_breaker`, one trading step.  Returns the new state, the
emitted orders, and a flag marking that the breach branch ran (the branch
that logs, liquidates and sets the cooldown).  Mirrors: seed the peak on
first call; raise the peak when `pv > peak`; otherwise compute
`dd = (peak - pv) / max(1e-9, peak)` and on `dd >= max_drawdown` liquidate
every open position, drop every position's tracked high and set
`cooldown_until = today + cooldown_days`.  The peak is never reset. -/
def ddStep (maxDrawdown : ℚ) (cooldownDays : ℕ) (positions : List (Symbol × ℚ))
    (pv : ℚ) (today : ℤ) (s : BreakerState) : BreakerState × List Order × Bool :=
  match s.equityPeak with
  | none => ({ s with equityPeak := some pv }, [], false)
  | some pk =>
      if pk < pv then ({ s with equityPeak := some pv }, [], false)
      else
        let dd := (pk - pv) / max EPS pk
        if maxDrawdown ≤ dd then
          ({ equityPeak := some pk,
             cooldownUntil := some (today + (cooldownDays : ℤ)),
             highestClose := positions.foldl (fun m p => hcErase m p.1) s.highestClose },
           exitAll positions, true)
        else (s, [], false)

/-- The host-runtime accessors `_rebalance` consults per symbol, all
deterministic within a trading step (the source memoizes bar data per day):
`_realized_vol`, `get_last_price` and `_atr`. -/
structure Env where
  vol : Symbol → Option ℚ
  price : Symbol → Option ℚ
  atrOf : Symbol → Option ℚ

/-- Step 2 of `_rebalance`: the `vols` dict — every selected symbol with an
available positive realized volatility.  `List.dedup` models dict keying
(duplicate selected symbols collapse to one entry; the source writes the same
value for each duplicate). -/
def volsOf (env : Env) (selected : List Symbol) : List (Symbol × ℚ) :=
  selected.dedup.filterMap (fun s =>
    match env.vol s with
    | some v => if 0 < v then some (s, v) else none
    | none => none)

/-- `inv_sum = sum(1/v for v in vols.values())`. -/
def invSumOf (vols : List (Symbol × ℚ)) : ℚ :=
  (vols.map (fun p => 1 / p.2)).sum

/-- Step 3 of `_rebalance` for one symbol with volatility `sv.2`: inverse-vol
weight, `stop_dist = max(0.01, atr_mult_trail * atr)`,
`risk_dollars = min(total_risk_dollars * w, risk_dollars_cap)`,
`shares_by_risk = int(risk_dollars // stop_dist)`,
`shares_by_capital = int((pv * exposure * w) // px)`,
`shares = max(0, min(shares_by_risk, shares_by_capital))`; the symbol is
dropped when `shares <= 0` or `shares * px < MIN_ORDER_DOLLARS`. -/
def sizeOne (prof : Profile) (env : Env) (pv exposure invSum : ℚ)
    (sv : Symbol × ℚ) : Option (Symbol × ℤ) :=
  match env.price sv.1 with
  | none => none
  | some px =>
      if px ≤ 0 then none
      else
        match env.atrOf sv.1 with
        | none => none
        | some a =>
            let w := (1 / sv.2) / invSum
            let stopDist := max (1/100) (prof.atr_mult_trail * a)
            let riskDollars := min (pv * prof.total_risk_budget * w) (pv * prof.risk_per_entry_cap)
            let sharesByRisk : ℤ := ⌊riskDollars / stopDist⌋
            let sharesByCapital : ℤ := ⌊(pv * exposure * w) / px⌋
            let shares : ℤ := max 0 (min sharesByRisk sharesByCapital)
            if shares ≤ 0 then none
            else if (shares : ℚ) * px < MIN_ORDER_DOLLARS then none
            else some (sv.1, shares)

/-- The `desired_qty` mapping of `_rebalance` (steps 2-3 combined). -/
def desiredQty (prof : Profile) (env : Env) (pv exposure : ℚ)
    (selected : List Symbol) : List (Symbol × ℤ) :=
  let vols := volsOf env selected
  vols.filterMap (sizeOne prof env pv exposure (invSumOf vols))

/-- The `invested` accumulator of `_rebalance`: total dollars across the sized
targets at the last prices used for sizing. -/
def investedOf (env : Env) (d : List (Symbol × ℤ)) : ℚ :=
  (d.map (fun p => (p.2 : ℚ) * ((env.price p.1).getD 0))).sum

/-- Python `int(...)` on a rational value: truncation toward zero. -/
def truncQ (q : ℚ) : ℤ := if 0 ≤ q then ⌊q⌋ else ⌈q⌉

/-- Step 4 of `_rebalance`, one `desired_qty` item: delta versus the current
position (`int(float(pos.quantity or 0))`), skipped when the delta is zero,
the price is missing/nonpositive, or `abs(delta) * px < MIN_ORDER_DOLLARS`;
a buy raises the symbol's tracked high to the last price, a sell that closes
the position (`cur + delta <= 0`) pops the tracked high. -/
def deltaStep (env : Env) (positions : List (Symbol × ℚ))
    (acc : List Order × HighMap) (st : Symbol × ℤ) : List Order × HighMap :=
  let sym := st.1
  let target := st.2
  let cur : ℤ := truncQ ((positions.lookup sym).getD 0)
  let delta := target - cur
  if delta = 0 then acc
  else
    match env.price sym with
    | none => acc
    | some px =>
        if px ≤ 0 then acc
        else if (|delta| : ℚ) * px < MIN_ORDER_DOLLARS then acc
        else if 0 < delta then
          (acc.1 ++ [⟨sym, (delta : ℚ), Side.buy⟩],
           hcSet acc.2 sym (max ((hcGet acc.2 sym).getD px) px))
        else
          (acc.1 ++ [⟨sym, ((|delta| : ℤ) : ℚ), Side.sell⟩],
           if cur + delta ≤ 0 then hcErase acc.2 sym else acc.2)

/-- Step 1 of `_rebalance`: one exit order for every held position with
nonzero quantity whose symbol is outside the selection (`sell` for longs,
`buy` for shorts). -/
def sellsOf (positions : List (Symbol × ℚ)) (selected : List Symbol) : List Order :=
  positions.filterMap (fun p =>
    if p.2 ≠ 0 ∧ p.1 ∉ selected then
      some (⟨p.1, |p.2|, if 0 < p.2 then Side.sell else Side.buy⟩ : Order)
    else none)

/-- Step 1 of `_rebalance`, effect on `_highest_close`: the tracked high of
every position sold in step 1 is popped. -/
def hcAfterSells (positions : List (Symbol × ℚ)) (selected : List Symbol)
    (hc0 : HighMap) : HighMap :=
  positions.foldl
    (fun m p => if p.2 ≠ 0 ∧ p.1 ∉ selected then hcErase m p.1 else m) hc0

/-- `_rebalance(selected, exposure)`: emitted orders and the resulting
`_highest_close` map.  Mirrors the source: immediate return on an empty
selection; clamp the exposure; sell every held position outside the selection
(dropping its tracked high); build inverse-vol weights; return after the
sells when no volatilities or no sized targets survive; otherwise submit the
delta orders. -/
def rebalance (prof : Profile) (env : Env) (pv : ℚ)
    (positions : List (Symbol × ℚ)) (hc0 : HighMap)
    (selected : List Symbol) (exposure0 : ℚ) : List Order × HighMap :=
  if selected = [] then ([], hc0)
  else
    if volsOf env selected = [] then
      (sellsOf positions selected, hcAfterSells positions selected hc0)
    else if desiredQty prof env pv (max 0 (min 1 exposure0)) selected = [] then
      (sellsOf positions selected, hcAfterSells positions selected hc0)
    else
      (sellsOf positions selected ++
        ((desiredQty prof env pv (max 0 (min 1 exposure0)) selected).foldl
          (deltaStep env positions) ([], hcAfterSells positions selected hc0)).1,
       ((desiredQty prof env pv (max 0 (min 1 exposure0)) selected).foldl
          (deltaStep env positions) ([], hcAfterSells positions selected hc0)).2)

/-- A bar used by concrete ATR computations: high 4, low 0, close 2, so every
true range (first bar and all subsequent ones) is 4. -/
def flatBar : Bar := ⟨0, 4, 0, 2⟩

/-- A 14-bar series of `flatBar`s — fewer than the period+10 = 24 bars the
claim says are required. -/
def bars14 : List Bar :=
  [flatBar, flatBar, flatBar, flatBar, flatBar, flatBar, flatBar,
   flatBar, flatBar, flatBar, flatBar, flatBar, flatBar, flatBar]

/-- A profile with three position slots and a one-per-sector cap, used by
concrete selector computations. -/
def cexSelProfile : Profile :=
  { balancedProfile with max_positions := 3, max_sector_positions := 1 }

/-- A concrete sector map: symbols 0 and 1 share sector 10, symbol 2 has
sector 20. -/
def cexSectorMap : List (Symbol × ℕ) := [(0, 10), (1, 10), (2, 20)]

/-- A concrete host environment for sizing computations: every symbol has
realized volatility 1, last price 100 and ATR 10. -/
def cexEnv : Env := ⟨fun _ => some 1, fun _ => some 100, fun _ => some 10⟩

/-- A host environment with no data at all (every lookup fails). -/
def envNone : Env := ⟨fun _ => none, fun _ => none, fun _ => none⟩

/-!  Theorems.  -/

/-- C9: every profile name whose lowercased, stripped form is not a key of
the preset table initializes the balanced preset instead of failing; in
particular the name "conservative", passed by `ConservativeStrategy` and
absent from the table, yields the balanced profile. -/
theorem unknown_profile_falls_back_to_balanced (nm : String)
    (h : PROFILES.lookup (profileName nm) = none) :
    getProfile nm = balancedProfile ∧
      getProfile conservativeProfileName = balancedProfile := by
  constructor
  · unfold getProfile
    rw [h]
    rfl
  · rfl

/-- Witness: the fallback theorem applied at the concrete name
"conservative", which is not a preset key. -/
theorem unknown_profile_falls_back_to_balanced_witness :
    PROFILES.lookup (profileName "conservative") = none ∧
      getProfile "conservative" = balancedProfile :=
  ⟨by decide, (unknown_profile_falls_back_to_balanced "conservative" (by decide)).1⟩

/-- C8: on a rebalance day with breadth available, the exposure equals
clamp(bear + dial * (bull - bear)) where dial =
clamp((breadth - BREADTH_LOW) / (BREADTH_HIGH - BREADTH_LOW)); at breadth 1/2
with bear- and bull-targets in [0, 1] it is exactly their midpoint. -/
theorem breadth_dial_blends_exposure (prof : Profile) (spy : Option Bool) (b : ℚ)
    (hbear0 : 0 ≤ prof.target_exposure_bear) (hbear1 : prof.target_exposure_bear ≤ 1)
    (hbull0 : 0 ≤ prof.target_exposure_bull) (hbull1 : prof.target_exposure_bull ≤ 1) :
    riskOnFraction prof spy true (some b) =
      max 0 (min 1 (prof.target_exposure_bear +
        max 0 (min 1 ((b - BREADTH_LOW) / (BREADTH_HIGH - BREADTH_LOW))) *
          (prof.target_exposure_bull - prof.target_exposure_bear))) ∧
    (b = 1/2 →
      riskOnFraction prof spy true (some b) =
        (prof.target_exposure_bear + prof.target_exposure_bull) / 2) := by
  have heps : max EPS (BREADTH_HIGH - BREADTH_LOW) = BREADTH_HIGH - BREADTH_LOW := by
    unfold EPS BREADTH_HIGH BREADTH_LOW
    norm_num
  constructor
  · unfold riskOnFraction
    rw [heps]
    simp
  · intro hb
    subst hb
    unfold riskOnFraction
    rw [heps]
    have hdial : (1/2 - BREADTH_LOW) / (BREADTH_HIGH - BREADTH_LOW) = 1/2 := by
      unfold BREADTH_HIGH BREADTH_LOW
      norm_num
    simp only [hdial]
    have h1 : max (0:ℚ) (min 1 (1/2)) = 1/2 := by norm_num
    rw [h1]
    have hmid : prof.target_exposure_bear +
        1/2 * (prof.target_exposure_bull - prof.target_exposure_bear) =
        (prof.target_exposure_bear + prof.target_exposure_bull) / 2 := by ring
    rw [hmid]
    have hlo : (0:ℚ) ≤ (prof.target_exposure_bear + prof.target_exposure_bull) / 2 := by
      linarith
    have hhi : (prof.target_exposure_bear + prof.target_exposure_bull) / 2 ≤ 1 := by
      linarith
    simp [min_eq_right hhi, max_eq_right hlo]

/-- Witness: the blend theorem at the balanced preset and breadth 1/2; the
result is the midpoint (20% + 98%) / 2 of the bear and bull exposures. -/
theorem breadth_dial_blends_exposure_witness :
    (0:ℚ) ≤ balancedProfile.target_exposure_bear ∧
      riskOnFraction balancedProfile (some true) true (some (1/2)) =
        (balancedProfile.target_exposure_bear + balancedProfile.target_exposure_bull) / 2 :=
  ⟨by norm_num [balancedProfile],
    (breadth_dial_blends_exposure balancedProfile (some true) (1/2)
      (by norm_num [balancedProfile]) (by norm_num [balancedProfile])
      (by norm_num [balancedProfile]) (by norm_num [balancedProfile])).2 rfl⟩

/-- C3 counterexample: a two-bar series whose last bar is dated on the
current trading day (day 5) is returned unchanged by the no-lookahead trim —
the code drops the bar only when the series has at least three rows, so the
claimed "for every fetched series, regardless of its length" fails. -/
theorem short_series_keeps_current_bar :
    trimNoLookahead NO_LOOKAHEAD 5 [⟨5, 1, 1, 1⟩, ⟨5, 1, 1, 1⟩] =
        [⟨5, 1, 1, 1⟩, ⟨5, 1, 1, 1⟩] ∧
      (5:ℤ) ≤ (Bar.mk 5 1 1 1).date := by
  exact ⟨rfl, by decide⟩

/-- C3 amended: with no-lookahead mode on, a fetched series of at least three
bars whose last bar is dated on-or-after the current trading date loses that
bar; a series of fewer than three bars, or one whose last bar predates today,
is returned unchanged. -/
theorem no_lookahead_trim (today : ℤ) (df : List Bar) (b : Bar)
    (hlast : df.getLast? = some b) :
    (3 ≤ df.length → today ≤ b.date →
        trimNoLookahead NO_LOOKAHEAD today df = df.dropLast) ∧
    (df.length < 3 → trimNoLookahead NO_LOOKAHEAD today df = df) ∧
    (b.date < today → trimNoLookahead NO_LOOKAHEAD today df = df) := by
  unfold trimNoLookahead NO_LOOKAHEAD
  rw [hlast]
  refine ⟨fun h3 hd => ?_, fun h3 => ?_, fun hd => ?_⟩
  · rw [if_pos ⟨rfl, h3⟩]
    dsimp only
    rw [if_pos hd]
  · rw [if_neg]
    intro hc
    omega
  · by_cases h3 : 3 ≤ df.length
    · rw [if_pos ⟨rfl, h3⟩]
      dsimp only
      rw [if_neg (by omega)]
    · rw [if_neg (fun hc => h3 hc.2)]

/-- Witness: the trim theorem at a concrete three-bar series whose last bar
carries today's date (day 5); the bar is dropped. -/
theorem no_lookahead_trim_witness :
    ([⟨1, 1, 1, 1⟩, ⟨2, 1, 1, 1⟩, ⟨5, 2, 2, 2⟩] : List Bar).getLast? = some ⟨5, 2, 2, 2⟩ ∧
      trimNoLookahead NO_LOOKAHEAD 5 [⟨1, 1, 1, 1⟩, ⟨2, 1, 1, 1⟩, ⟨5, 2, 2, 2⟩] =
        ([⟨1, 1, 1, 1⟩, ⟨2, 1, 1, 1⟩, ⟨5, 2, 2, 2⟩] : List Bar).dropLast :=
  ⟨rfl, (no_lookahead_trim 5 [⟨1, 1, 1, 1⟩, ⟨2, 1, 1, 1⟩, ⟨5, 2, 2, 2⟩] ⟨5, 2, 2, 2⟩
      rfl).1 (by decide) (by decide)⟩

/-- C4 counterexample: for the close series [1, 2, 4] and lookback 2, the
code's reference close is the series element one bar before the last (2),
giving momentum 1; the claimed reference — the close two (= lookback) bars
before the last — is 1, which would give 3 ≠ 1. -/
theorem mom_reference_off_by_one :
    mom [1, 2, 4] 2 = some 1 ∧ ¬ ((4:ℚ) / 1 - 1 = 1) := by
  constructor
  · unfold mom
    norm_num [List.get?]
  · norm_num

/-- C4 amended: mom returns none exactly when the series has at most
lookback bars or the reference close is ≤ 0, and otherwise
(last_close / reference) - 1, where for positive lookback the reference is
the element at position length - lookback, i.e. lookback - 1 bars before the
last bar (Python `close.iloc[-lb]`). -/
theorem mom_value (close : List ℚ) (lb : ℕ) (past last : ℚ) (hlb : 0 < lb) :
    (close.length ≤ lb → mom close lb = none) ∧
    (lb < close.length → close.get? (close.length - lb) = some past →
      close.getLast? = some last →
      mom close lb = if past ≤ 0 then none else some (last / past - 1)) := by
  constructor
  · intro h
    unfold mom
    rw [if_pos h]
  · intro hlen hp hl
    unfold mom
    rw [if_neg (by omega), if_neg (by omega), hp, hl]
    rfl

/-- Witness: the momentum theorem at close series [1, 2, 4] with lookback 2;
reference 2, last close 4, momentum 4/2 - 1 = 1. -/
theorem mom_value_witness :
    2 < ([1, 2, 4] : List ℚ).length ∧
      mom [1, 2, 4] 2 = if (2:ℚ) ≤ 0 then none else some ((4:ℚ) / 2 - 1) :=
  ⟨by decide, (mom_value [1, 2, 4] 2 2 4 (by decide)).2 (by decide) rfl rfl⟩

/-- C2 counterexample: with tracked high 100, ATR 10 and trail multiplier
27/10, the stop level is 100 - 27 = 73; at price exactly 73 — at the level,
not below it — the code emits the full-quantity sell and clears the tracked
high, contradicting "never emits a sell while the current price is at or
above" the level. -/
theorem trailing_stop_fires_at_stop_level :
    (100:ℚ) - (27/10) * 10 = 73 ∧
      trailingStep (27/10) 5 (some 73) (some 10) (some 100) = (none, some 5) := by
  constructor
  · norm_num
  · unfold trailingStep
    norm_num

/-- C2 amended: for a tracked high H, positive quantity, positive price and
positive stop distance, the step never sells while the price is strictly
above H - atr_mult_trail * ATR (it only raises the tracked high), sells the
full quantity and clears the tracked high exactly when the price is at or
below that level, and, the tracked high having been cleared, an immediately
following step at the same price cannot fire again. -/
theorem trailing_stop_step (mult qty px a H : ℚ)
    (hq : 0 < qty) (hpx : 0 < px) (hd : 0 < mult * a) :
    (H - mult * a < px →
        trailingStep mult qty (some px) (some a) (some H) = (some (max H px), none)) ∧
    (px ≤ H - mult * a →
        trailingStep mult qty (some px) (some a) (some H) = (none, some qty)) ∧
    (∀ a2 : ℚ, 0 < mult * a2 →
        trailingStep mult qty (some px) (some a2) none = (some px, none)) := by
  have hmax : (if H < px then px else H) = max H px := by
    rcases le_or_lt px H with h | h
    · rw [if_neg (not_lt.mpr h), max_eq_left h]
    · rw [if_pos h, max_eq_right (le_of_lt h)]
  refine ⟨fun habove => ?_, fun hbelow => ?_, fun a2 hd2 => ?_⟩
  · unfold trailingStep
    rw [if_neg (not_le.mpr hq)]
    dsimp only [Option.getD_some]
    rw [if_neg (not_le.mpr hpx), hmax, if_neg]
    rcases max_cases H px with ⟨hm, _⟩ | ⟨hm, _⟩ <;> rw [hm] <;> intro hc <;> linarith
  · unfold trailingStep
    rw [if_neg (not_le.mpr hq)]
    dsimp only [Option.getD_some]
    have hHpx : ¬ H < px := by intro hc; linarith
    rw [if_neg (not_le.mpr hpx), if_neg hHpx, if_pos hbelow, abs_of_pos hq]
  · unfold trailingStep
    rw [if_neg (not_le.mpr hq)]
    dsimp only [Option.getD_none]
    rw [if_neg (not_le.mpr hpx), if_neg (lt_irrefl px), if_neg (by intro hc; linarith)]

/-- Witness: the trailing-stop theorem with high 100, ATR 10, multiplier
27/10 and price 72 (below the stop level 73): the full quantity 5 is sold and
the tracked high cleared. -/
theorem trailing_stop_step_witness :
    (72:ℚ) ≤ 100 - (27/10) * 10 ∧
      trailingStep (27/10) 5 (some 72) (some 10) (some 100) = (none, some 5) :=
  ⟨by norm_num,
    (trailing_stop_step (27/10) 5 72 10 100 (by norm_num) (by norm_num)
      (by norm_num)).2.1 (by norm_num)⟩

/-- C1 counterexample: with max_drawdown 1/5 and cooldown 10 days, the
breaker seeds the peak at 100 on day 0, fires on day 1 at portfolio value 70
(drawdown 30%), and — although the value never exceeds the peak afterwards —
fires again on day 2 at the unchanged value 70, re-extending the cooldown end
from day 11 to day 12.  This contradicts the claim that it cannot fire again
before equity exceeds a new peak. -/
theorem breaker_refires_without_recovery :
    ddStep (1/5) 10 [] 100 0 ⟨none, none, []⟩ = (⟨some 100, none, []⟩, [], false) ∧
    ddStep (1/5) 10 [] 70 1 ⟨some 100, none, []⟩ = (⟨some 100, some 11, []⟩, [], true) ∧
    ddStep (1/5) 10 [] 70 2 ⟨some 100, some 11, []⟩ = (⟨some 100, some 12, []⟩, [], true) := by
  refine ⟨rfl, ?_, ?_⟩ <;>
    · unfold ddStep
      dsimp only
      rw [if_neg (by norm_num), if_pos (by unfold EPS; norm_num)]
      rfl

/-- C1 amended: whenever a peak is tracked, the breach branch (liquidate,
clear tracked highs, set the cooldown) runs exactly when the portfolio value
does not exceed the peak and (peak - pv) / max(1e-9, peak) ≥ max_drawdown —
regardless of any earlier firing — and each firing keeps the all-time peak
and re-extends the cooldown to today + cooldown_days.  The breaker is thus
not one-shot: it re-fires on every later step satisfying the breach
condition until a new peak is set. -/
theorem breaker_fires_iff (maxdd : ℚ) (cd : ℕ) (positions : List (Symbol × ℚ))
    (pv : ℚ) (today : ℤ) (s : BreakerState) (pk : ℚ)
    (hpk : s.equityPeak = some pk) :
    ((ddStep maxdd cd positions pv today s).2.2 = true ↔
      pv ≤ pk ∧ maxdd ≤ (pk - pv) / max EPS pk) ∧
    ((ddStep maxdd cd positions pv today s).2.2 = true →
      (ddStep maxdd cd positions pv today s).1.equityPeak = some pk ∧
        (ddStep maxdd cd positions pv today s).1.cooldownUntil =
          some (today + (cd:ℤ))) := by
  unfold ddStep
  rw [hpk]
  dsimp only
  by_cases h1 : pk < pv
  · rw [if_pos h1]
    constructor
    · simp only [Bool.false_eq_true, false_iff]
      intro hc
      exact absurd hc.1 (not_le.mpr h1)
    · intro hc
      simp at hc
  · rw [if_neg h1]
    by_cases h2 : maxdd ≤ (pk - pv) / max EPS pk
    · rw [if_pos h2]
      exact ⟨by simp [not_lt.mp h1, h2], fun _ => ⟨rfl, rfl⟩⟩
    · rw [if_neg h2]
      constructor
      · simp only [Bool.false_eq_true, false_iff]
        intro hc
        exact h2 hc.2
      · intro hc
        simp at hc

/-- Witness: the firing characterization applied at peak 100, value 70,
max_drawdown 1/5, day 1: the breach branch runs. -/
theorem breaker_fires_iff_witness :
    (⟨some 100, none, []⟩ : BreakerState).equityPeak = some 100 ∧
      (ddStep (1/5) 10 [] 70 1 ⟨some 100, none, []⟩).2.2 = true :=
  ⟨rfl, (breaker_fires_iff (1/5) 10 [] 70 1 ⟨some 100, none, []⟩ 100 rfl).1.mpr
    ⟨by norm_num, by unfold EPS; norm_num⟩⟩

/-- The tail of the true-range series has one entry per remaining bar. -/
theorem trAux_length (prev : Bar) (l : List Bar) :
    (trAux prev l).length = l.length := by
  induction l generalizing prev with
  | nil => rfl
  | cons c cs ih => simp [trAux, ih]

/-- The true-range series has one entry per bar. -/
theorem trueRanges_length (bars : List Bar) :
    (trueRanges bars).length = bars.length := by
  cases bars with
  | nil => rfl
  | cons b rest => simp [trueRanges, trAux_length]

/-- C5 counterexample: the 14-bar series (period 14, so only 14 < 14 + 10
bars of history) still yields ATR = 4 — the code never checks that at least
period+10 bars were returned; the rolling mean is already defined once
period bars exist. -/
theorem atr_defined_below_required_history :
    bars14.length < atrFetchLength 14 ∧ atr 14 bars14 = some 4 := by
  constructor
  · decide
  · norm_num [atr, rollingMeanLast, bars14, trueRanges, trAux, flatBar,
      List.sum_cons, List.sum_nil, List.drop_zero]

/-- C5 amended: `_atr` requests max(period+10, 80) bars but computes on
whatever nonempty series comes back: the result is none exactly when the
series has fewer than period bars (the final rolling window is incomplete,
pandas NaN) or the rolling mean of true range is ≤ 0; whenever that mean is
positive it is returned, regardless of whether period+10 bars were
available. -/
theorem atr_none_iff (p : ℕ) (bars : List Bar) (hp : 0 < p) (hne : bars ≠ []) :
    (atr p bars = none ↔
      bars.length < p ∨
        ∃ a, rollingMeanLast p (trueRanges bars) = some a ∧ a ≤ 0) ∧
    (∀ a, rollingMeanLast p (trueRanges bars) = some a → 0 < a →
        atr p bars = some a) := by
  constructor
  · unfold atr
    cases hr : rollingMeanLast p (trueRanges bars) with
    | none =>
        simp only [eq_self_iff_true, true_iff]
        unfold rollingMeanLast at hr
        by_cases hlen : (trueRanges bars).length < p ∨ p = 0
        · rcases hlen with hlen | hlen
          · left
            rw [trueRanges_length] at hlen
            exact hlen
          · omega
        · rw [if_neg hlen] at hr
          simp at hr
    | some a =>
        dsimp only
        by_cases ha : a ≤ 0
        · rw [if_pos ha]
          simp only [eq_self_iff_true, true_iff]
          exact Or.inr ⟨a, rfl, ha⟩
        · rw [if_neg ha]
          apply iff_of_false
          · simp
          · rintro (hlen | ⟨a2, ha2, hle⟩)
            · unfold rollingMeanLast at hr
              rw [if_pos (Or.inl (by rw [trueRanges_length]; omega))] at hr
              simp at hr
            · rw [Option.some_inj] at ha2
              exact ha (by rw [ha2]; exact hle)
  · intro a hr ha
    unfold atr
    rw [hr]
    dsimp only
    rw [if_neg (not_le.mpr ha)]

/-- Witness: the ATR characterization at period 2 on a single-bar series —
fewer than period bars, so the result is none. -/
theorem atr_none_iff_witness :
    0 < 2 ∧ ([flatBar] : List Bar) ≠ [] ∧ atr 2 [flatBar] = none :=
  ⟨by decide, by decide,
    (atr_none_iff 2 [flatBar] (by decide) (by decide)).1.mpr (Or.inl (by decide))⟩

/-- The sector-capped pass only ever appends to its accumulator, and what it
appends is a subsequence of the remaining ranked list. -/
theorem capPassAux_append (maxPos cap : ℕ) (f : Symbol → Sector) :
    ∀ (l : List Symbol) (cnt : Sector → ℕ) (acc : List Symbol),
      ∃ t, capPassAux maxPos cap f l cnt acc = acc ++ t ∧ t.Sublist l := by
  intro l
  induction l with
  | nil =>
      intro cnt acc
      exact ⟨[], by simp [capPassAux]⟩
  | cons sym rest ih =>
      intro cnt acc
      unfold capPassAux
      by_cases h1 : cap ≤ cnt (f sym)
      · rw [if_pos h1]
        obtain ⟨t, ht, hs⟩ := ih cnt acc
        exact ⟨t, ht, hs.cons sym⟩
      · rw [if_neg h1]
        by_cases h2 : maxPos ≤ (acc ++ [sym]).length
        · rw [if_pos h2]
          exact ⟨[sym], by simp, by simp⟩
        · rw [if_neg h2]
          obtain ⟨t, ht, hs⟩ :=
            ih (fun t => if t = f sym then cnt t + 1 else cnt t) (acc ++ [sym])
          exact ⟨sym :: t, by simp [ht], hs.cons₂ sym⟩

/-- The sector-capped pass never grows its accumulator beyond max_positions
(as long as the accumulator starts below the cap). -/
theorem capPassAux_length (maxPos cap : ℕ) (f : Symbol → Sector) :
    ∀ (l : List Symbol) (cnt : Sector → ℕ) (acc : List Symbol),
      acc.length < maxPos → (capPassAux maxPos cap f l cnt acc).length ≤ maxPos := by
  intro l
  induction l with
  | nil =>
      intro cnt acc hacc
      unfold capPassAux
      omega
  | cons sym rest ih =>
      intro cnt acc hacc
      unfold capPassAux
      by_cases h1 : cap ≤ cnt (f sym)
      · rw [if_pos h1]
        exact ih cnt acc hacc
      · rw [if_neg h1]
        by_cases h2 : maxPos ≤ (acc ++ [sym]).length
        · rw [if_pos h2]
          simp only [List.length_append, List.length_cons, List.length_nil] at h2 ⊢
          omega
        · rw [if_neg h2]
          apply ih
          simp only [List.length_append, List.length_cons, List.length_nil] at h2 ⊢
          omega

/-- Invariant of the sector-capped pass: if the running sector counts
dominate the per-sector counts of the accumulator and are themselves within
the cap, every sector appears at most cap times in the result. -/
theorem capPassAux_sector_le (maxPos cap : ℕ) (f : Symbol → Sector) :
    ∀ (l : List Symbol) (cnt : Sector → ℕ) (acc : List Symbol),
      (∀ sec, acc.countP (fun x => decide (f x = sec)) ≤ cnt sec) →
      (∀ sec, cnt sec ≤ cap) →
      ∀ sec, (capPassAux maxPos cap f l cnt acc).countP
          (fun x => decide (f x = sec)) ≤ cap := by
  intro l
  induction l with
  | nil =>
      intro cnt acc hdom hcap sec
      unfold capPassAux
      exact le_trans (hdom sec) (hcap sec)
  | cons sym rest ih =>
      intro cnt acc hdom hcap sec
      unfold capPassAux
      by_cases h1 : cap ≤ cnt (f sym)
      · rw [if_pos h1]
        exact ih cnt acc hdom hcap sec
      · rw [if_neg h1]
        have hdom2 : ∀ sec2, (acc ++ [sym]).countP (fun x => decide (f x = sec2)) ≤
            (if sec2 = f sym then cnt sec2 + 1 else cnt sec2) := by
          intro sec2
          by_cases hs2 : sec2 = f sym
          · rw [if_pos hs2]
            subst hs2
            simp only [List.countP_append, List.countP_cons, List.countP_nil,
              Nat.zero_add, decide_eq_true_eq, if_true]
            have := hdom (f sym)
            omega
          · rw [if_neg hs2]
            simp only [List.countP_append, List.countP_cons, List.countP_nil,
              Nat.zero_add, decide_eq_true_eq]
            rw [if_neg (fun h => hs2 h.symm)]
            have := hdom sec2
            omega
        have hcap2 : ∀ sec2, (if sec2 = f sym then cnt sec2 + 1 else cnt sec2) ≤ cap := by
          intro sec2
          by_cases hs2 : sec2 = f sym
          · rw [if_pos hs2, hs2]
            omega
          · rw [if_neg hs2]
            exact hcap sec2
        by_cases h2 : maxPos ≤ (acc ++ [sym]).length
        · rw [if_pos h2]
          exact le_trans (hdom2 sec) (hcap2 sec)
        · rw [if_neg h2]
          exact ih _ _ hdom2 hcap2 sec

/-- The fallback pass only ever appends to its accumulator, and what it
appends is a subsequence of the remaining ranked list. -/
theorem fillPassAux_append (maxPos : ℕ) :
    ∀ (l : List Symbol) (sel : List Symbol),
      ∃ t, fillPassAux maxPos l sel = sel ++ t ∧ t.Sublist l := by
  intro l
  induction l with
  | nil =>
      intro sel
      exact ⟨[], by simp [fillPassAux]⟩
  | cons sym rest ih =>
      intro sel
      unfold fillPassAux
      by_cases h1 : sym ∈ sel
      · rw [if_pos h1]
        obtain ⟨t, ht, hs⟩ := ih sel
        exact ⟨t, ht, hs.cons sym⟩
      · rw [if_neg h1]
        by_cases h2 : maxPos ≤ (sel ++ [sym]).length
        · rw [if_pos h2]
          exact ⟨[sym], by simp, by simp⟩
        · rw [if_neg h2]
          obtain ⟨t, ht, hs⟩ := ih (sel ++ [sym])
          exact ⟨sym :: t, by simp [ht], hs.cons₂ sym⟩

/-- The fallback pass never grows its accumulator beyond max_positions. -/
theorem fillPassAux_length (maxPos : ℕ) :
    ∀ (l : List Symbol) (sel : List Symbol),
      sel.length < maxPos → (fillPassAux maxPos l sel).length ≤ maxPos := by
  intro l
  induction l with
  | nil =>
      intro sel hsel
      unfold fillPassAux
      omega
  | cons sym rest ih =>
      intro sel hsel
      unfold fillPassAux
      by_cases h1 : sym ∈ sel
      · rw [if_pos h1]
        exact ih sel hsel
      · rw [if_neg h1]
        by_cases h2 : maxPos ≤ (sel ++ [sym]).length
        · rw [if_pos h2]
          simp only [List.length_append, List.length_cons, List.length_nil] at h2 ⊢
          omega
        · rw [if_neg h2]
          apply ih
          simp only [List.length_append, List.length_cons, List.length_nil] at h2 ⊢
          omega

/-- C7 counterexample: ranked [0, 1, 2] with sectors {0 ↦ 10, 1 ↦ 10,
2 ↦ 20}, per-sector cap 1 and max_positions 3.  The capped pass selects
[0, 2] (symbol 1 blocked by its sector); the fallback pass then appends 1
after 2, producing [0, 2, 1] — symbol 1 ranks before symbol 2 yet appears
after it, so the output does not preserve rank order. -/
theorem selector_breaks_rank_order :
    selectWithSectorCaps cexSelProfile cexSectorMap [0, 1, 2] = [0, 2, 1] ∧
      ([0, 1, 2] : List Symbol).indexOf 1 < ([0, 1, 2] : List Symbol).indexOf 2 ∧
      ¬ ([0, 2, 1] : List Symbol).indexOf 1 < ([0, 2, 1] : List Symbol).indexOf 2 := by
  refine ⟨by decide, by decide, by decide⟩

/-- C7 amended: for max_positions ≥ 1 and max_sector_positions ≥ 1 the
selector's output never exceeds max_positions symbols; when sector data is
present, the sector-capped pass produces a rank-order-preserving subsequence
of the ranked list in which no sector exceeds the cap, the final output is
that pass's selection followed (not interleaved, so overall rank order can
break) by fallback picks, and the fallback runs only when the capped pass
accepted fewer than max_positions symbols. -/
theorem selector_caps (prof : Profile) (secmap : List (Symbol × ℕ))
    (ranked : List Symbol)
    (hmp : 1 ≤ prof.max_positions) (hcap : 1 ≤ prof.max_sector_positions) :
    (selectWithSectorCaps prof secmap ranked).length ≤ prof.max_positions ∧
    (secmap ≠ [] →
      (capPassAux prof.max_positions prof.max_sector_positions (secOf secmap)
          ranked (fun _ => 0) []).Sublist ranked ∧
      (∀ sec : Sector,
        (capPassAux prof.max_positions prof.max_sector_positions (secOf secmap)
            ranked (fun _ => 0) []).countP (fun x => decide (secOf secmap x = sec)) ≤
          prof.max_sector_positions) ∧
      (∃ t, selectWithSectorCaps prof secmap ranked =
          capPassAux prof.max_positions prof.max_sector_positions (secOf secmap)
            ranked (fun _ => 0) [] ++ t ∧ t.Sublist ranked) ∧
      (prof.max_positions ≤
          (capPassAux prof.max_positions prof.max_sector_positions (secOf secmap)
            ranked (fun _ => 0) []).length →
        selectWithSectorCaps prof secmap ranked =
          capPassAux prof.max_positions prof.max_sector_positions (secOf secmap)
            ranked (fun _ => 0) [])) := by
  have hcapPassSub :
      (capPassAux prof.max_positions prof.max_sector_positions (secOf secmap)
        ranked (fun _ => 0) []).Sublist ranked := by
    obtain ⟨t, ht, hs⟩ := capPassAux_append prof.max_positions
      prof.max_sector_positions (secOf secmap) ranked (fun _ => 0) []
    rw [ht, List.nil_append]
    exact hs
  have hcapPassLen :
      (capPassAux prof.max_positions prof.max_sector_positions (secOf secmap)
        ranked (fun _ => 0) []).length ≤ prof.max_positions :=
    capPassAux_length prof.max_positions prof.max_sector_positions (secOf secmap)
      ranked (fun _ => 0) [] (by simpa using hmp)
  constructor
  · unfold selectWithSectorCaps
    by_cases hr : ranked = []
    · rw [if_pos hr]
      simp
    · rw [if_neg hr]
      by_cases hsm : secmap = []
      · rw [if_pos hsm]
        rw [List.length_take]
        omega
      · rw [if_neg hsm]
        by_cases hlt :
            (capPassAux prof.max_positions prof.max_sector_positions (secOf secmap)
              ranked (fun _ => 0) []).length < prof.max_positions
        · rw [if_pos hlt]
          exact fillPassAux_length prof.max_positions ranked _ hlt
        · rw [if_neg hlt]
          exact hcapPassLen
  · intro hsm
    refine ⟨hcapPassSub, ?_, ?_, ?_⟩
    · intro sec
      apply capPassAux_sector_le
      · intro sec2
        simp
      · intro sec2
        simp
    · by_cases hr : ranked = []
      · subst hr
        refine ⟨[], ?_, List.Sublist.refl []⟩
        unfold selectWithSectorCaps capPassAux
        rw [if_pos rfl]
        simp
      · unfold selectWithSectorCaps
        rw [if_neg hr, if_neg hsm]
        dsimp only
        by_cases hlt :
            (capPassAux prof.max_positions prof.max_sector_positions (secOf secmap)
              ranked (fun _ => 0) []).length < prof.max_positions
        · rw [if_pos hlt]
          obtain ⟨t, ht, hs⟩ := fillPassAux_append prof.max_positions ranked
            (capPassAux prof.max_positions prof.max_sector_positions (secOf secmap)
              ranked (fun _ => 0) [])
          exact ⟨t, ht, hs⟩
        · rw [if_neg hlt]
          exact ⟨[], by simp, List.nil_sublist ranked⟩
    · intro hge
      by_cases hr : ranked = []
      · subst hr
        unfold capPassAux at hge
        simp at hge
        omega
      · unfold selectWithSectorCaps
        rw [if_neg hr, if_neg hsm]
        dsimp only
        rw [if_neg (by omega)]

/-- Witness: the selector-bound theorem at the concrete ranked list
[0, 1, 2], the two-sector map and the cap-1/max-3 profile; the output has at
most three symbols. -/
theorem selector_caps_witness :
    1 ≤ cexSelProfile.max_positions ∧
      (selectWithSectorCaps cexSelProfile cexSectorMap [0, 1, 2]).length ≤
        cexSelProfile.max_positions :=
  ⟨by decide,
    (selector_caps cexSelProfile cexSectorMap [0, 1, 2] (by decide) (by decide)).1⟩

/-- Membership in the vols map means the symbol's realized volatility was
available and positive. -/
theorem volsOf_mem (env : Env) (selected : List Symbol) (s : Symbol) (v : ℚ)
    (h : (s, v) ∈ volsOf env selected) : env.vol s = some v ∧ 0 < v := by
  unfold volsOf at h
  obtain ⟨x, hx, hf⟩ := List.mem_filterMap.mp h
  cases hv : env.vol x with
  | none =>
      rw [hv] at hf
      simp at hf
  | some v2 =>
      rw [hv] at hf
      dsimp only at hf
      by_cases h2 : 0 < v2
      · rw [if_pos h2] at hf
        rw [Option.some_inj, Prod.mk.injEq] at hf
        obtain ⟨rfl, rfl⟩ := hf
        exact ⟨hv, h2⟩
      · rw [if_neg h2] at hf
        simp at hf

/-- Every entry of the vols map has positive volatility. -/
theorem volsOf_pos (env : Env) (selected : List Symbol) :
    ∀ p ∈ volsOf env selected, 0 < p.2 := by
  intro p hp
  obtain ⟨s, v⟩ := p
  exact (volsOf_mem env selected s v hp).2

/-- The sum of inverse volatilities over a nonempty vols map is positive. -/
theorem invSumOf_pos (vols : List (Symbol × ℚ)) (hpos : ∀ p ∈ vols, 0 < p.2)
    (hne : vols ≠ []) : 0 < invSumOf vols := by
  unfold invSumOf
  apply List.sum_pos
  · intro x hx
    obtain ⟨p, hp, rfl⟩ := List.mem_map.mp hx
    have := hpos p hp
    positivity
  · simp only [ne_eq, List.map_eq_nil_iff]
    exact hne

/-- A share count of the form max(0, min(a, b)), once positive, is bounded by
both a and b. -/
theorem max_zero_min_le (a b : ℤ) (h : 0 < max 0 (min a b)) :
    max 0 (min a b) ≤ a ∧ max 0 (min a b) ≤ b := by
  rcases le_total (min a b) 0 with hm | hm
  · rw [max_eq_left hm] at h
    exact absurd h (lt_irrefl 0)
  · rw [max_eq_right hm]
    exact ⟨min_le_left a b, min_le_right a b⟩

/-- Dissection of a successful sizing: the price and ATR were available and
positive, and the share count is exactly
max(0, min(shares_by_risk, shares_by_capital)), positive, and worth at least
the minimum order size. -/
theorem sizeOne_some (prof : Profile) (env : Env) (pv e invSum : ℚ) (s : Symbol)
    (v : ℚ) (s2 : Symbol) (q : ℤ)
    (h : sizeOne prof env pv e invSum (s, v) = some (s2, q)) :
    s2 = s ∧ ∃ px a, env.price s = some px ∧ 0 < px ∧ env.atrOf s = some a ∧
      q = max 0 (min
          ⌊min (pv * prof.total_risk_budget * (1 / v / invSum))
              (pv * prof.risk_per_entry_cap) /
            max (1/100) (prof.atr_mult_trail * a)⌋
          ⌊pv * e * (1 / v / invSum) / px⌋) ∧
      0 < q ∧ MIN_ORDER_DOLLARS ≤ (q : ℚ) * px := by
  unfold sizeOne at h
  dsimp only at h
  cases hp : env.price s with
  | none =>
      rw [hp] at h
      simp at h
  | some px =>
      rw [hp] at h
      dsimp only at h
      by_cases hpx : px ≤ 0
      · rw [if_pos hpx] at h
        simp at h
      · rw [if_neg hpx] at h
        cases ha : env.atrOf s with
        | none =>
            rw [ha] at h
            simp at h
        | some a =>
            rw [ha] at h
            dsimp only at h
            split_ifs at h with h1 h2
            rw [Option.some_inj, Prod.mk.injEq] at h
            obtain ⟨rfl, rfl⟩ := h
            refine ⟨rfl, px, a, rfl, not_le.mp hpx, rfl, rfl, not_le.mp h1, not_lt.mp h2⟩

/-- Inductive step of the exposure bound: the dollars invested across the
sized survivors of any vols list are bounded by pv·exposure times the sum of
that list's inverse-volatility weights. -/
theorem invested_filterMap_le (prof : Profile) (env : Env) (pv e invSum : ℚ)
    (hpv : 0 ≤ pv) (he : 0 ≤ e) (hinv : 0 < invSum) :
    ∀ l : List (Symbol × ℚ), (∀ p ∈ l, 0 < p.2) →
      investedOf env (l.filterMap (sizeOne prof env pv e invSum)) ≤
        pv * e * ((l.map (fun p => 1 / p.2 / invSum)).sum) := by
  intro l
  induction l with
  | nil =>
      intro _
      simp [investedOf]
  | cons hd tl ih =>
      intro hpos
      obtain ⟨s, v⟩ := hd
      have hv : 0 < v := hpos (s, v) (List.mem_cons_self _ _)
      have hwnn : 0 ≤ pv * e * (1 / v / invSum) := by positivity
      have htail := ih (fun p hp => hpos p (List.mem_cons_of_mem _ hp))
      have hsplit : pv * e * ((1 / v / invSum) + (tl.map (fun p => 1 / p.2 / invSum)).sum) =
          pv * e * (1 / v / invSum) + pv * e * (tl.map (fun p => 1 / p.2 / invSum)).sum := by
        ring
      rw [List.filterMap_cons]
      cases hs : sizeOne prof env pv e invSum (s, v) with
      | none =>
          simp only [List.map_cons, List.sum_cons]
          rw [hsplit]
          linarith
      | some sq =>
          obtain ⟨s2, q⟩ := sq
          obtain ⟨rfl, px, a, hpx, hpxpos, ha, hq, hqpos, hmin⟩ :=
            sizeOne_some prof env pv e invSum s v s2 q hs
          have hqle : q ≤ ⌊pv * e * (1 / v / invSum) / px⌋ := by
            rw [hq]
            exact (max_zero_min_le _ _ (hq ▸ hqpos)).2
          have hcast : (q : ℚ) ≤ pv * e * (1 / v / invSum) / px :=
            le_trans (Int.cast_le.mpr hqle) (Int.floor_le _)
          have hhead : (q : ℚ) * px ≤ pv * e * (1 / v / invSum) := by
            have hmul : (q : ℚ) * px ≤ (pv * e * (1 / v / invSum) / px) * px :=
              mul_le_mul_of_nonneg_right hcast (le_of_lt hpxpos)
            rwa [div_mul_cancel₀ _ (ne_of_gt hpxpos)] at hmul
          simp only [investedOf, List.map_cons, List.sum_cons]
          rw [hsplit, hpx]
          simp only [Option.getD_some]
          unfold investedOf at htail
          exact add_le_add hhead htail

/-- C6: every sized target share count equals
max(0, min(shares_by_risk, shares_by_capital)) with
shares_by_risk = ⌊min(pv·budget·w, pv·cap) / max(0.01, mult·ATR)⌋ and
shares_by_capital = ⌊pv·exposure·w / price⌋, hence is bounded by both; and
the total sized dollars never exceed pv·exposure. -/
theorem riskSizer_caps (prof : Profile) (env : Env) (pv exposure : ℚ)
    (selected : List Symbol) (hpv : 0 ≤ pv) (he : 0 ≤ exposure) :
    (∀ s q, (s, q) ∈ desiredQty prof env pv exposure selected →
      ∃ v px a, env.vol s = some v ∧ 0 < v ∧ env.price s = some px ∧ 0 < px ∧
        env.atrOf s = some a ∧
        q = max 0 (min
            ⌊min (pv * prof.total_risk_budget * (1 / v / invSumOf (volsOf env selected)))
                (pv * prof.risk_per_entry_cap) /
              max (1/100) (prof.atr_mult_trail * a)⌋
            ⌊pv * exposure * (1 / v / invSumOf (volsOf env selected)) / px⌋) ∧
        q ≤ ⌊min (pv * prof.total_risk_budget * (1 / v / invSumOf (volsOf env selected)))
                (pv * prof.risk_per_entry_cap) /
              max (1/100) (prof.atr_mult_trail * a)⌋ ∧
        q ≤ ⌊pv * exposure * (1 / v / invSumOf (volsOf env selected)) / px⌋) ∧
    investedOf env (desiredQty prof env pv exposure selected) ≤ pv * exposure := by
  constructor
  · intro s q hmem
    unfold desiredQty at hmem
    dsimp only at hmem
    obtain ⟨p, hp, hsz⟩ := List.mem_filterMap.mp hmem
    obtain ⟨s1, v⟩ := p
    obtain ⟨rfl, px, a, hpx, hpxpos, ha, hq, hqpos, _⟩ :=
      sizeOne_some prof env pv exposure (invSumOf (volsOf env selected)) s1 v s q hsz
    obtain ⟨hvol, hvpos⟩ := volsOf_mem env selected s v hp
    refine ⟨v, px, a, hvol, hvpos, hpx, hpxpos, ha, hq, ?_, ?_⟩
    · rw [hq]
      exact (max_zero_min_le _ _ (hq ▸ hqpos)).1
    · rw [hq]
      exact (max_zero_min_le _ _ (hq ▸ hqpos)).2
  · by_cases hv : volsOf env selected = []
    · unfold desiredQty
      dsimp only
      rw [hv]
      simp [investedOf]
      positivity
    · have hpos := volsOf_pos env selected
      have hinv := invSumOf_pos (volsOf env selected) hpos hv
      have hle := invested_filterMap_le prof env pv exposure
        (invSumOf (volsOf env selected)) hpv he hinv (volsOf env selected) hpos
      unfold desiredQty
      dsimp only
      refine le_trans hle ?_
      have hsum : ((volsOf env selected).map (fun p => 1 / p.2 / invSumOf (volsOf env selected))).sum = 1 := by
        have hrw : (volsOf env selected).map (fun p => 1 / p.2 / invSumOf (volsOf env selected)) =
            (volsOf env selected).map (fun p => (1 / p.2) * (invSumOf (volsOf env selected))⁻¹) := by
          simp [div_eq_mul_inv]
        rw [hrw, List.sum_map_mul_right]
        exact mul_inv_cancel₀ (ne_of_gt hinv)
      rw [hsum, mul_one]

/-- Witness: the sizing bound at the balanced profile, portfolio value
100000, full exposure and a single selected symbol with volatility 1, price
100 and ATR 10 (37 shares, 3700 dollars ≤ 100000). -/
theorem riskSizer_caps_witness :
    (0:ℚ) ≤ 100000 ∧ (0:ℚ) ≤ 1 ∧
      investedOf cexEnv (desiredQty balancedProfile cexEnv 100000 1 [0]) ≤ 100000 * 1 :=
  ⟨by norm_num, by norm_num,
    (riskSizer_caps balancedProfile cexEnv 100000 1 [0] (by norm_num) (by norm_num)).2⟩

/-- Every held nonzero position outside the selection yields its exit order
in step 1 of the rebalance. -/
theorem sellsOf_mem (positions : List (Symbol × ℚ)) (selected : List Symbol)
    (sym : Symbol) (qty : ℚ) (hp : (sym, qty) ∈ positions) (hq : qty ≠ 0)
    (hns : sym ∉ selected) :
    (⟨sym, |qty|, if 0 < qty then Side.sell else Side.buy⟩ : Order) ∈
      sellsOf positions selected := by
  unfold sellsOf
  apply List.mem_filterMap.mpr
  refine ⟨(sym, qty), hp, ?_⟩
  dsimp only
  rw [if_pos ⟨hq, hns⟩]

/-- C10: a rebalance with an empty selection submits no orders and leaves the
tracked-high map unchanged (no other engine state is touched by
`_rebalance`); with a non-empty selection, every held position with nonzero
quantity whose symbol is outside the selection receives a full-quantity exit
order (`sell` for longs, `buy` for shorts). -/
theorem rebalance_empty_frame (prof : Profile) (env : Env) (pv : ℚ)
    (positions : List (Symbol × ℚ)) (hc : HighMap) (exposure : ℚ) :
    rebalance prof env pv positions hc [] exposure = ([], hc) ∧
    (∀ (selected : List Symbol) (sym : Symbol) (qty : ℚ),
      selected ≠ [] → (sym, qty) ∈ positions → qty ≠ 0 → sym ∉ selected →
      (⟨sym, |qty|, if 0 < qty then Side.sell else Side.buy⟩ : Order) ∈
        (rebalance prof env pv positions hc selected exposure).1) := by
  constructor
  · unfold rebalance
    rw [if_pos rfl]
  · intro selected sym qty hsel hp hq hns
    have hmem := sellsOf_mem positions selected sym qty hp hq hns
    unfold rebalance
    rw [if_neg hsel]
    by_cases h1 : volsOf env selected = []
    · rw [if_pos h1]
      exact hmem
    · rw [if_neg h1]
      by_cases h2 : desiredQty prof env pv (max 0 (min 1 exposure)) selected = []
      · rw [if_pos h2]
        exact hmem
      · rw [if_neg h2]
        exact List.mem_append_left _ hmem

/-- Witness: the frame theorem at a concrete state — empty selection leaves
([], []) untouched, and with selection [1] the held long position (0, 5) gets
its sell order. -/
theorem rebalance_empty_frame_witness :
    rebalance balancedProfile envNone 0 [(0, (5:ℚ))] [] [] 1 = ([], []) ∧
      (⟨0, |(5:ℚ)|, if (0:ℚ) < 5 then Side.sell else Side.buy⟩ : Order) ∈
        (rebalance balancedProfile envNone 0 [(0, (5:ℚ))] [] [1] 1).1 :=
  ⟨(rebalance_empty_frame balancedProfile envNone 0 [(0, (5:ℚ))] [] 1).1,
    (rebalance_empty_frame balancedProfile envNone 0 [(0, (5:ℚ))] [] 1).2
      [1] 0 5 (by decide) (List.mem_singleton.mpr rfl) (by norm_num) (by decide)⟩

end Lawvisory
